import Mathlib

/-!
Verification development for the Virgin Islands RSS aggregator
(`build_feed.py`).  Python strings are modelled as lists of Unicode code
points (`List Char`); Python integers and epoch timestamps as `Int`;
fallible operations as `Option` / `Except`.  Each definition below embeds
the correspondingly named function of `build_feed.py`; external
collaborators (the HTTP transport, the HTML parser, `dateutil.parser`)
are modelled as explicit capability parameters, as the specification
treats them as external capabilities.
-/

/-- Python `str` modelled as its sequence of code points. -/
abbrev PyStr := List Char

/-- Python `s.startswith(p)` on the `List Char` model. -/
def pyStartsWith : PyStr → PyStr → Bool
  | _, [] => true
  | [], _ :: _ => false
  | c :: cs, d :: ds => c == d && pyStartsWith cs ds

/-- Python substring test `needle in hay` on the `List Char` model. -/
def pyContains : PyStr → PyStr → Bool
  | [], needle => needle.isEmpty
  | c :: t, needle => pyStartsWith (c :: t) needle || pyContains t needle

/-- Python `str.lower()`, modelled as ASCII lowercasing. -/
def pyLower (s : PyStr) : PyStr := s.map Char.toLower

/-- Python whitespace (as used by `str.split()` / `str.strip()`), ASCII model. -/
def isPySpace (c : Char) : Bool :=
  c == ' ' || c == '\t' || c == '\n' || c == '\r' || c == Char.ofNat 11 || c == Char.ofNat 12

/-- Python `str.strip()` with no arguments. -/
def pyStrip (s : PyStr) : PyStr :=
  ((s.dropWhile isPySpace).reverse.dropWhile isPySpace).reverse

/-- Python `s.endswith(p)`. -/
def pyEndsWith (s p : PyStr) : Bool := pyStartsWith s.reverse p.reverse

/-- Python `href.lstrip("/")`. -/
def lstripSlash (s : PyStr) : PyStr := s.dropWhile (fun c => c == '/')

/-- Python `s.rsplit("/", 1)[0]`: everything before the last slash, or the
whole string when it has no slash. -/
def rsplitHead (s : PyStr) : PyStr :=
  match s.reverse.dropWhile (fun c => c != '/') with
  | [] => s
  | _ :: t => t.reverse

/-- Python `str.split()` with no arguments: split on whitespace runs,
dropping empty fields. -/
def pySplitWs (s : PyStr) : List PyStr :=
  (s.foldr
    (fun c acc =>
      if isPySpace c then [] :: acc
      else
        match acc with
        | [] => [[c]]
        | w :: ws => (c :: w) :: ws)
    []).filter (fun w => !w.isEmpty)

/-- Python `" ".join(ws)`. -/
def joinSpace : List PyStr → PyStr
  | [] => []
  | [w] => w
  | w :: x :: ws => w ++ ' ' :: joinSpace (x :: ws)

/-- Embeds `clean_text` (build_feed.py lines 35-38): collapse all
whitespace runs to single spaces, empty input maps to the empty string. -/
def clean_text (s : PyStr) : PyStr :=
  if s.isEmpty then [] else joinSpace (pySplitWs s)

/-- Embeds `matches_filters` (build_feed.py lines 18-28): lowercase blob of
`title` and `summary` joined by one space; any exclude-keyword substring
rejects; an empty include list accepts; otherwise some include keyword
must occur. -/
def matches_filters (title summary : PyStr) (keywords exclude_keywords : List PyStr) : Bool :=
  let blob := pyLower (title ++ ' ' :: summary)
  if !exclude_keywords.isEmpty
      && exclude_keywords.any (fun bad => pyContains blob (pyLower bad)) then
    false
  else if keywords.isEmpty then true
  else keywords.any (fun k => pyContains blob (pyLower k))

/-- Embeds the regex match `re.match(r"^https?://[^/]+", base_url)` of
build_feed.py line 49: the scheme plus the maximal nonempty run of
non-slash characters after it, when the base has that shape. -/
def schemeHost (base : PyStr) : Option PyStr :=
  let tryScheme : PyStr → Option PyStr := fun p =>
    if pyStartsWith base p then
      let host := (base.drop p.length).takeWhile (fun c => c != '/')
      if host.isEmpty then none else some (p ++ host)
    else none
  match tryScheme ("https://".toList) with
  | some r => some r
  | none => tryScheme ("http://".toList)

/-- Embeds `make_absolute_url` (build_feed.py lines 41-55).  The Python
body returns inside the `href.startswith("/")` branch only when the regex
matches the base; otherwise it falls through to the relative-path code,
which the inner `match` below reproduces. -/
def make_absolute_url (base_url href : PyStr) : PyStr :=
  if href.isEmpty then []
  else if pyStartsWith href ("http://".toList) || pyStartsWith href ("https://".toList) then
    href
  else if pyStartsWith href ("//".toList) then "https:".toList ++ href
  else
    match (if pyStartsWith href ("/".toList) then schemeHost base_url else none) with
    | some m => m ++ href
    | none =>
      if pyEndsWith base_url ("/".toList) then base_url ++ lstripSlash href
      else rsplitHead base_url ++ '/' :: lstripSlash href

/-- Spec-side companion for §4.1 rule (d), written from the spec words for
comparison with `make_absolute_url`: the base URL directory (path up to
its last slash, or the full base URL when it ends in one) concatenated
with the href. -/
def resolveRelativeSpec (base_url href : PyStr) : PyStr :=
  (if pyEndsWith base_url ("/".toList) then base_url
   else rsplitHead base_url ++ '/' :: []) ++ href

/-- Outcome of one call to the external `dateutil.parser.parse` capability:
it may raise, return a falsy value, or return a `datetime` carrying a
wall-clock reading (seconds of that wall clock taken as a UTC instant)
and an optional timezone offset in seconds. -/
inductive ParseOutcome where
  | raisesExn
  | noResult
  | parsed (naive : Int) (tzOffset : Option Int)
deriving DecidableEq

/-- A timezone-aware `datetime` as handed to `email.utils.format_datetime`
by `parse_date_to_rss`: wall-clock seconds plus a timezone offset in
seconds.  `format_datetime` is an injective second-resolution RFC-2822
serialization of this data, so the model keeps the datetime itself. -/
structure RssDate where
  naive : Int
  tzOffset : Int
deriving DecidableEq

/-- The instant a `RssDate` denotes, in epoch seconds (what Python
`datetime.timestamp()` returns for it). -/
def instant (d : RssDate) : Int := d.naive - d.tzOffset

/-- Embeds `parse_date_to_rss` (build_feed.py lines 58-75) over an
abstract `dateutil.parser.parse` capability: clean the raw text, empty
input or a raising/falsy parse yields `none`, a parsed datetime without a
timezone is made UTC-aware (`replace(tzinfo=timezone.utc)`). -/
def parse_date_to_rss (dateparse : PyStr → ParseOutcome) (raw : PyStr) : Option RssDate :=
  let raw := clean_text raw
  if raw.isEmpty then none
  else
    match dateparse raw with
    | .raisesExn => none
    | .noResult => none
    | .parsed naive tz => some ⟨naive, tz.getD 0⟩

/-- Embeds `is_403` (build_feed.py lines 82-83). -/
def is_403 (msg : PyStr) : Bool :=
  pyContains msg ("403".toList) || pyContains msg ("Forbidden".toList)

/-- What one attempt of `requests.get` plus `raise_for_status` can do:
succeed with body text, return a 403-status response, or raise an
exception carrying a message. -/
inductive AttemptOutcome where
  | ok (text : PyStr)
  | status403
  | exn (msg : PyStr)
deriving DecidableEq

/-- Result of `fetch_html`: the body text, `blocked` for the `None`
return on a 403, or `failure` for the re-raised last error. -/
inductive FetchResult where
  | success (text : PyStr)
  | blocked
  | failure (msg : PyStr)
deriving DecidableEq

/-- Embeds the attempt loop of `fetch_html` (build_feed.py lines 109-127)
over an environment giving each attempt's outcome: a 403 status or an
exception whose message passes `is_403` returns `blocked` at once; any
other exception is retried while attempts remain, the last error being
re-raised once they run out.  (The fixed `time.sleep` backoff between
attempts is a real-time effect outside the model.) -/
def fetchAttempts (env : Nat → AttemptOutcome) (attempt remaining : Nat) : FetchResult :=
  match env attempt with
  | .ok t => .success t
  | .status403 => .blocked
  | .exn m =>
    if is_403 m then .blocked
    else
      match remaining with
      | 0 => .failure m
      | r + 1 => fetchAttempts env (attempt + 1) r

/-- Embeds `fetch_html` (build_feed.py line 90): `retries + 1` attempts
starting at attempt `0`. -/
def fetch_html (env : Nat → AttemptOutcome) (retries : Nat) : FetchResult :=
  fetchAttempts env 0 retries

/-- The canonical item dict of build_feed.py lines 199-204.  `published`
holds the RFC-2822 string produced by `parse_date_to_rss`, modelled by
the `RssDate` it serializes (or `none`). -/
structure Item where
  title : PyStr
  summary : PyStr
  link : PyStr
  published : Option RssDate
deriving DecidableEq

/-- The literal appended by build_feed.py line 197.  The source file holds
the three code points U+00E2, U+20AC, U+00A6 (a mojibake decoding of the
UTF-8 bytes of U+2026 HORIZONTAL ELLIPSIS). -/
def ellipsisMarker : PyStr := [Char.ofNat 0xE2, Char.ofNat 0x20AC, Char.ofNat 0xA6]

/-- Embeds the summary cap of `scrape_source` (build_feed.py lines
195-197): over 4000 code points, keep the first 4000 and append the
marker. -/
def truncateSummary (summary : PyStr) : PyStr :=
  if summary.length > 4000 then summary.take 4000 ++ ellipsisMarker else summary

/-- Embeds the per-article body of `scrape_source` (build_feed.py lines
184-204) with the selector extraction abstracted into the raw extracted
texts: clean the title and summary, parse the date, drop the article when
the cleaned title is empty, cap the summary. -/
def buildArticleItem (dateparse : PyStr → ParseOutcome)
    (url titleRaw dateRaw summaryRaw : PyStr) : Option Item :=
  let title := clean_text titleRaw
  let summary := clean_text summaryRaw
  let published := parse_date_to_rss dateparse dateRaw
  if title.isEmpty then none
  else some ⟨title, truncateSummary summary, url, published⟩

/-- Embeds `sort_key` (build_feed.py lines 277-284): a present
`published` value re-parses to its instant (`datetime.timestamp()` of an
RFC-2822 string round-trips exactly at second resolution); a missing one
gives `0.0`, modelled as `0`. -/
def sort_key (x : Item) : Int :=
  match x.published with
  | some d => instant d
  | none => 0

/-- Stable descending insertion: place `x` before the first element whose
key is not greater than `x`'s.  Together with `sortItemsDesc` this models
Python's stable `list.sort(key=sort_key, reverse=True)`. -/
def insertItemDesc (x : Item) : List Item → List Item
  | [] => [x]
  | y :: ys => if sort_key y ≤ sort_key x then x :: y :: ys else y :: insertItemDesc x ys

/-- Stable descending sort by `sort_key`, modelling
`all_items.sort(key=sort_key, reverse=True)` (build_feed.py line 286). -/
def sortItemsDesc : List Item → List Item
  | [] => []
  | x :: xs => insertItemDesc x (sortItemsDesc xs)

/-- Embeds the filter-and-dedupe loop of `main` (build_feed.py lines
266-273), threading the `seen_links` set (modelled as a list) and the
growing `all_items` accumulator. -/
def acceptLoop (keywords exclude : List PyStr) :
    List PyStr × List Item → List Item → List PyStr × List Item
  | st, [] => st
  | (seen, acc), item :: rest =>
    if seen.contains item.link then acceptLoop keywords exclude (seen, acc) rest
    else if matches_filters item.title item.summary keywords exclude then
      acceptLoop keywords exclude (seen ++ [item.link], acc ++ [item]) rest
    else acceptLoop keywords exclude (seen, acc) rest

/-- Items accepted from a stream of scraped items, starting from an empty
`seen_links` set and an empty accumulator. -/
def acceptedItems (keywords exclude : List PyStr) (items : List Item) : List Item :=
  (acceptLoop keywords exclude ([], []) items).2

/-- Embeds the source-level control flow of `scrape_source` (build_feed.py
lines 149-209): a blocked listing page (`fetch_html` returned `None`)
yields the empty list; an exception raised by the listing fetch is not
caught and propagates; a fetched listing yields the article loop's items
(that loop isolates per-article failures with its own `try`, abstracted
here into the resulting list). -/
def scrape_source (listing : FetchResult) (articles : List Item) : Except PyStr (List Item) :=
  match listing with
  | .blocked => .ok []
  | .failure e => .error e
  | .success _ => .ok articles

deriving instance DecidableEq for Except

/-- One configured source as `main` sees it: its raw `type` field and
what `scrape_source` returns for it when dispatched. -/
structure SourceOutcome where
  srcType : Option PyStr
  scraped : Except PyStr (List Item)
deriving DecidableEq

/-- Embeds `(src.get("type") or "scrape").lower().strip()`
(build_feed.py line 259); `None` and the empty string are falsy. -/
def normType (t : Option PyStr) : PyStr :=
  pyStrip (pyLower (match t with
    | none => "scrape".toList
    | some s => if s.isEmpty then "scrape".toList else s))

/-- Embeds the source loop of `main` (build_feed.py lines 258-273): a
source whose normalized type is not `"scrape"` is skipped; otherwise the
`scrape_source` call either raises (propagating out of the loop, so the
run dies) or contributes its items through the filter-and-dedupe loop. -/
def mainLoop (keywords exclude : List PyStr) :
    List PyStr × List Item → List SourceOutcome → Except PyStr (List PyStr × List Item)
  | st, [] => .ok st
  | st, src :: rest =>
    if normType src.srcType != "scrape".toList then mainLoop keywords exclude st rest
    else
      match src.scraped with
      | .error e => .error e
      | .ok items => mainLoop keywords exclude (acceptLoop keywords exclude st items) rest

/-- The `all_items` list `main` holds after its source loop, when the loop
survives. -/
def collectItems (keywords exclude : List PyStr) (sources : List SourceOutcome) :
    Except PyStr (List Item) :=
  (mainLoop keywords exclude ([], []) sources).map (fun st => st.2)

/-- Embeds the tail of `main` (build_feed.py lines 275-296): sort newest
first, truncate to `max_items`, and (when the loop did not die) the
resulting list is what `build_rss_feed` serializes into `feed.xml`.  An
`error` result means an uncaught exception escaped `main` and no output
document was written. -/
def mainRun (keywords exclude : List PyStr) (max_items : Nat)
    (sources : List SourceOutcome) : Except PyStr (List Item) :=
  (collectItems keywords exclude sources).map
    (fun all_items => (sortItemsDesc all_items).take max_items)

/-! Helper lemmas. -/

/-- The empty needle is a substring of every string (witness for Python
`"" in s` being `True`). -/
lemma pyContains_nil (hay : PyStr) : pyContains hay [] = true := by
  cases hay <;> simp [pyContains, pyStartsWith, List.isEmpty]

lemma pyLower_nil : pyLower [] = [] := rfl

/-- A string not starting with a slash is unchanged by `lstrip("/")`. -/
lemma lstripSlash_of_no_slash (href : PyStr)
    (h : pyStartsWith href ("/".toList) = false) : lstripSlash href = href := by
  cases href with
  | nil => rfl
  | cons c t =>
    simp only [pyStartsWith, String.toList] at h
    simp only [lstripSlash, List.dropWhile]
    cases hc : c == '/' with
    | true => rw [hc] at h; simp [pyStartsWith] at h
    | false => simp [hc]

/-- Sample item with no timestamp. -/
def sampleA : Item := ⟨"A".toList, [], "https://vi.com/a".toList, none⟩

/-- Sample item dated one second before the epoch (its `published` string
would be the RFC-2822 text of 1969-12-31 23:59:59 UTC). -/
def sampleB : Item := ⟨"B".toList, [], "https://vi.com/b".toList, some ⟨-1, 0⟩⟩

/-- Sample item sharing `sampleA`'s link but with a different title. -/
def sampleDup : Item := ⟨"C".toList, [], "https://vi.com/a".toList, none⟩

/-- C10: if the exclude-keyword list contains the empty string, every item
is rejected, because the empty string is a substring of every blob. -/
theorem C10_empty_exclude_rejects (title summary : PyStr)
    (keywords exclude_keywords : List PyStr)
    (h : [] ∈ exclude_keywords) :
    matches_filters title summary keywords exclude_keywords = false := by
  unfold matches_filters
  have hne : exclude_keywords.isEmpty = false := by
    cases exclude_keywords with
    | nil => simp at h
    | cons a t => rfl
  have hany : exclude_keywords.any
      (fun bad => pyContains (pyLower (title ++ ' ' :: summary)) (pyLower bad)) = true :=
    List.any_eq_true.mpr ⟨[], h, by rw [pyLower_nil]; exact pyContains_nil _⟩
  simp [hne, hany]

/-- C10 witness at a concrete input. -/
theorem C10_witness :
    matches_filters ("Beach".toList) ("day".toList) [] [[]] = false :=
  C10_empty_exclude_rejects ("Beach".toList) ("day".toList) [] [[]] (by simp)

/-- C8: the filter accepts exactly when no exclude keyword occurs in the
lowercased blob and (the include list is empty, or some include keyword
occurs); exclusion takes precedence over inclusion. -/
theorem C8_filter_rule (title summary : PyStr) (keywords exclude_keywords : List PyStr) :
    matches_filters title summary keywords exclude_keywords = true ↔
      ((∀ bad ∈ exclude_keywords,
          pyContains (pyLower (title ++ ' ' :: summary)) (pyLower bad) = false)
        ∧ (keywords = [] ∨ ∃ k ∈ keywords,
            pyContains (pyLower (title ++ ' ' :: summary)) (pyLower k) = true)) := by
  unfold matches_filters
  by_cases hex : exclude_keywords.any
      (fun bad => pyContains (pyLower (title ++ ' ' :: summary)) (pyLower bad)) = true
  · rcases List.any_eq_true.mp hex with ⟨bad, hbad, hc⟩
    have hne : exclude_keywords.isEmpty = false := by
      cases exclude_keywords with
      | nil => simp at hbad
      | cons a t => rfl
    simp only [hne, hex, Bool.not_false, Bool.true_and, if_true]
    constructor
    · intro hfalse; exact absurd hfalse (by simp)
    · rintro ⟨hall, -⟩
      exact absurd (hall bad hbad) (by simp [hc])
  · have hall : ∀ bad ∈ exclude_keywords,
        pyContains (pyLower (title ++ ' ' :: summary)) (pyLower bad) = false := by
      intro bad hbad
      by_contra hcon
      exact hex (List.any_eq_true.mpr ⟨bad, hbad, by simpa using hcon⟩)
    have hcond : (!exclude_keywords.isEmpty && exclude_keywords.any
        (fun bad => pyContains (pyLower (title ++ ' ' :: summary)) (pyLower bad))) = false := by
      rw [Bool.and_eq_false_iff]
      right
      exact Bool.eq_false_iff.mpr hex
    simp only [hcond, Bool.false_eq_true, if_false]
    by_cases hkw : keywords.isEmpty = true
    · have hkeq : keywords = [] := List.isEmpty_iff.mp hkw
      simp only [hkw, if_true]
      constructor
      · intro _
        exact ⟨hall, Or.inl hkeq⟩
      · intro _
        trivial
    · have hkf : keywords.isEmpty = false := Bool.eq_false_iff.mpr hkw
      have hne : keywords ≠ [] := by
        intro hn
        rw [hn] at hkf
        exact absurd hkf (by simp)
      simp only [hkf, Bool.false_eq_true, if_false, List.any_eq_true]
      constructor
      · rintro ⟨k, hk, hck⟩
        exact ⟨hall, Or.inr ⟨k, hk, hck⟩⟩
      · rintro ⟨-, hinc⟩
        rcases hinc with h0 | ⟨k, hk, hck⟩
        · exact absurd h0 hne
        · exact ⟨k, hk, hck⟩

/-- C8 witness at a concrete input. -/
theorem C8_witness :
    matches_filters ("Beach Day".toList) ("sun".toList) ["beach".toList] [] = true :=
  (C8_filter_rule ("Beach Day".toList) ("sun".toList) ["beach".toList] []).mpr
    ⟨by simp, Or.inr ⟨"beach".toList, by simp, by decide⟩⟩

/-- C4: a 5000-character summary is truncated to its first 4000 characters
followed by the marker the source literally contains, the three code
points U+00E2 U+20AC U+00A6, for a total length of 4003 (not at most
4001); a 4000-character summary is unchanged. -/
theorem C4_truncation_eval :
    truncateSummary (List.replicate 5000 'a')
        = List.replicate 4000 'a' ++ ellipsisMarker
    ∧ (truncateSummary (List.replicate 5000 'a')).length = 4003
    ∧ ellipsisMarker.length = 3
    ∧ truncateSummary (List.replicate 4000 'a') = List.replicate 4000 'a' := by
  have h1 : truncateSummary (List.replicate 5000 'a')
      = List.replicate 4000 'a' ++ ellipsisMarker := by
    unfold truncateSummary
    rw [if_pos (by rw [List.length_replicate]; norm_num)]
    rw [List.take_replicate]
    have hm : min 4000 5000 = 4000 := by norm_num
    rw [hm]
  refine ⟨h1, ?_, rfl, ?_⟩
  · rw [h1, List.length_append, List.length_replicate]
    rfl
  · unfold truncateSummary
    rw [if_neg (by rw [List.length_replicate]; norm_num)]

/-- Concrete `dateutil.parser.parse` capability used to witness C7: it
parses the ISO-like text `2024-01-05T10:00:00` to the naive datetime
whose wall clock reads 1704448800 epoch seconds, and raises on anything
else. -/
def dateparseExample : PyStr → ParseOutcome := fun s =>
  if s == "2024-01-05T10:00:00".toList then .parsed 1704448800 none else .raisesExn

/-- C7: under any parse capability, the normalizer maps the empty string
and raising or falsy parses to the sentinel (so it never propagates a
failure), and a parsed datetime with no timezone is stamped UTC, its
instant being the wall clock read as UTC. -/
theorem C7_date_normalizer (dateparse : PyStr → ParseOutcome) (raw : PyStr) :
    (parse_date_to_rss dateparse [] = none)
    ∧ (dateparse (clean_text raw) = .raisesExn → parse_date_to_rss dateparse raw = none)
    ∧ (dateparse (clean_text raw) = .noResult → parse_date_to_rss dateparse raw = none)
    ∧ (∀ naive : Int, (clean_text raw).isEmpty = false →
        dateparse (clean_text raw) = .parsed naive none →
        parse_date_to_rss dateparse raw = some ⟨naive, 0⟩ ∧ instant ⟨naive, 0⟩ = naive) := by
  refine ⟨rfl, ?_, ?_, ?_⟩
  · intro h
    unfold parse_date_to_rss
    by_cases he : (clean_text raw).isEmpty = true
    · simp [he]
    · have hf : (clean_text raw).isEmpty = false := Bool.eq_false_iff.mpr he
      simp only [hf, Bool.false_eq_true, if_false, h]
  · intro h
    unfold parse_date_to_rss
    by_cases he : (clean_text raw).isEmpty = true
    · simp [he]
    · have hf : (clean_text raw).isEmpty = false := Bool.eq_false_iff.mpr he
      simp only [hf, Bool.false_eq_true, if_false, h]
  · intro naive hne h
    refine ⟨?_, by simp [instant]⟩
    unfold parse_date_to_rss
    simp only [hne, Bool.false_eq_true, if_false, h, Option.getD]

/-- C7 witness: the concrete scenario of the spec, including the
arithmetic that 1704448800 is 2024-01-05 10:00:00 UTC (19727 days after
the epoch plus 10 hours). -/
theorem C7_witness :
    parse_date_to_rss dateparseExample ("2024-01-05T10:00:00".toList) = some ⟨1704448800, 0⟩
    ∧ (1704448800 : Int) = 19727 * 86400 + 10 * 3600 := by
  have h := (C7_date_normalizer dateparseExample ("2024-01-05T10:00:00".toList)).2.2.2
    1704448800 (by decide) (by decide)
  exact ⟨h.1, by norm_num⟩

/-- All attempts up to the budget failing with non-`is_403` exceptions
makes the loop surface the last attempt's error. -/
lemma fetchAttempts_all_fail (env : Nat → AttemptOutcome) (f : Nat → PyStr) :
    ∀ (remaining attempt : Nat),
      (∀ i, attempt ≤ i → i ≤ attempt + remaining →
        env i = .exn (f i) ∧ is_403 (f i) = false) →
      fetchAttempts env attempt remaining = .failure (f (attempt + remaining))
  | 0, attempt, h => by
    have h0 := h attempt le_rfl (by omega)
    unfold fetchAttempts
    rw [h0.1]
    simp [h0.2]
  | r + 1, attempt, h => by
    have h0 := h attempt le_rfl (by omega)
    unfold fetchAttempts
    rw [h0.1]
    simp only [h0.2, Bool.false_eq_true, if_false]
    have hrec := fetchAttempts_all_fail env f r (attempt + 1)
      (fun i hi1 hi2 => h i (by omega) (by omega))
    rw [hrec]
    have harith : attempt + 1 + r = attempt + (r + 1) := by omega
    rw [harith]

/-- C6 (amended): attempt 0 returning a 403 status, or raising a message
containing `403` or `Forbidden` (case-sensitive, per `is_403`), gives
`blocked` at once, whatever the retry budget; a first-attempt success
returns the text unchanged; and when every attempt raises a non-`is_403`
error the loop runs `retries + 1` attempts and surfaces the last error. -/
theorem C6_fetch_amended (env : Nat → AttemptOutcome) (retries : Nat) :
    (env 0 = .status403 → fetch_html env retries = .blocked)
    ∧ (∀ m, env 0 = .exn m → is_403 m = true → fetch_html env retries = .blocked)
    ∧ (∀ t, env 0 = .ok t → fetch_html env retries = .success t)
    ∧ (∀ f : Nat → PyStr,
        (∀ i, i ≤ retries → env i = .exn (f i) ∧ is_403 (f i) = false) →
        fetch_html env retries = .failure (f retries)) := by
  refine ⟨?_, ?_, ?_, ?_⟩
  · intro h
    unfold fetch_html fetchAttempts
    rw [h]
  · intro m h h4
    unfold fetch_html fetchAttempts
    rw [h]
    simp [h4]
  · intro t h
    unfold fetch_html fetchAttempts
    rw [h]
  · intro f h
    have := fetchAttempts_all_fail env f retries 0 (fun i hi1 hi2 => h i (by omega))
    unfold fetch_html
    rw [this]
    have : 0 + retries = retries := by omega
    rw [this]

/-- C6 counterexample: a transport error whose message is exactly
`forbidden` (which contains `forbidden`, hence indicates access denial in
the claim's lowercase sense) is not recognized by `is_403`; with one
retry allowed the fetch retries and then surfaces the error instead of
returning `blocked` immediately. -/
theorem C6_counterexample :
    fetch_html (fun _ => .exn ("forbidden".toList)) 1 = .failure ("forbidden".toList)
    ∧ fetch_html (fun _ => .exn ("forbidden".toList)) 1 ≠ .blocked
    ∧ pyContains ("forbidden".toList) ("forbidden".toList) = true
    ∧ is_403 ("forbidden".toList) = false := by decide

/-- C6 witness: a 403 status on the first attempt is blocked at once. -/
theorem C6_witness : fetch_html (fun _ => AttemptOutcome.status403) 2 = .blocked :=
  (C6_fetch_amended (fun _ => AttemptOutcome.status403) 2).1 rfl

/-- C9 counterexample: for an empty href the resolver returns the empty
string, not the concatenation onto the base directory that a rule
covering every href would give. -/
theorem C9_counterexample :
    make_absolute_url ("https://a.com/x/y".toList) [] = []
    ∧ resolveRelativeSpec ("https://a.com/x/y".toList) [] = "https://a.com/x/".toList
    ∧ ([] : PyStr) ≠ "https://a.com/x/".toList := by decide

/-- C9 (amended): an empty href yields the empty string; otherwise the
rules apply in order — absolute http/https hrefs unchanged, `//` hrefs
get `https:`, `/` hrefs get the base's scheme+host when the base matches
`^https?://[^/]+`, and remaining hrefs are concatenated onto the base
directory exactly as the spec words it; the four concrete spec equalities
hold. -/
theorem C9_url_resolver_amended :
    (∀ base : PyStr, make_absolute_url base [] = [])
    ∧ (∀ base href : PyStr,
        (pyStartsWith href ("http://".toList) || pyStartsWith href ("https://".toList)) = true →
        make_absolute_url base href = href)
    ∧ (∀ base href : PyStr,
        (pyStartsWith href ("http://".toList) || pyStartsWith href ("https://".toList)) = false →
        pyStartsWith href ("//".toList) = true →
        make_absolute_url base href = "https:".toList ++ href)
    ∧ (∀ (base href m : PyStr),
        (pyStartsWith href ("http://".toList) || pyStartsWith href ("https://".toList)) = false →
        pyStartsWith href ("//".toList) = false →
        pyStartsWith href ("/".toList) = true →
        schemeHost base = some m →
        make_absolute_url base href = m ++ href)
    ∧ (∀ base href : PyStr, href ≠ [] →
        (pyStartsWith href ("http://".toList) || pyStartsWith href ("https://".toList)) = false →
        pyStartsWith href ("//".toList) = false →
        pyStartsWith href ("/".toList) = false →
        make_absolute_url base href = resolveRelativeSpec base href)
    ∧ make_absolute_url ("https://a.com/x/y".toList) ("/z".toList) = "https://a.com/z".toList
    ∧ make_absolute_url ("https://a.com/x/".toList) ("z".toList) = "https://a.com/x/z".toList
    ∧ make_absolute_url ("https://a.com".toList) ("https://b.com/q".toList)
        = "https://b.com/q".toList
    ∧ make_absolute_url ("https://a.com/x".toList) ("//cdn.com/i.png".toList)
        = "https://cdn.com/i.png".toList := by
  have hnonempty : ∀ href : PyStr,
      (pyStartsWith href ("http://".toList) || pyStartsWith href ("https://".toList)) = true →
      href.isEmpty = false := by
    intro href h
    cases href with
    | nil => simp [pyStartsWith] at h
    | cons c t => rfl
  have hnonempty2 : ∀ href : PyStr, pyStartsWith href ("//".toList) = true →
      href.isEmpty = false := by
    intro href h
    cases href with
    | nil => simp [pyStartsWith] at h
    | cons c t => rfl
  have hnonempty1 : ∀ href : PyStr, pyStartsWith href ("/".toList) = true →
      href.isEmpty = false := by
    intro href h
    cases href with
    | nil => simp [pyStartsWith] at h
    | cons c t => rfl
  refine ⟨?_, ?_, ?_, ?_, ?_, by decide, by decide, by decide, by decide⟩
  · intro base
    rfl
  · intro base href h
    unfold make_absolute_url
    simp only [hnonempty href h, Bool.false_eq_true, if_false, h, if_true]
  · intro base href habs h2
    unfold make_absolute_url
    simp only [hnonempty2 href h2, Bool.false_eq_true, if_false, habs, h2, if_true]
  · intro base href m habs h2 h1 hsh
    unfold make_absolute_url
    simp only [hnonempty1 href h1, Bool.false_eq_true, if_false, habs, h2, h1, if_true, hsh]
  · intro base href hne habs h2 h1
    have hemp : href.isEmpty = false := by
      cases href with
      | nil => exact absurd rfl hne
      | cons c t => rfl
    unfold make_absolute_url resolveRelativeSpec
    simp only [hemp, Bool.false_eq_true, if_false, habs, h2, h1, if_true,
      lstripSlash_of_no_slash href h1]
    by_cases hb : pyEndsWith base ['/'] = true
    · simp [hb]
    · have hbf : pyEndsWith base ['/'] = false := Bool.eq_false_iff.mpr hb
      simp [hbf, List.append_assoc]

/-- C9 witness: rule (a) applied at a concrete absolute href. -/
theorem C9_witness :
    make_absolute_url ("https://a.com".toList) ("http://b.org/p".toList)
      = "http://b.org/p".toList :=
  C9_url_resolver_amended.2.1 ("https://a.com".toList) ("http://b.org/p".toList) (by decide)

/-- Inserting keeps pairwise non-increasing keys. -/
lemma pairwise_insertItemDesc (x : Item) :
    ∀ l : List Item, l.Pairwise (fun a b => sort_key b ≤ sort_key a) →
      (insertItemDesc x l).Pairwise (fun a b => sort_key b ≤ sort_key a)
  | [], _ => by simp [insertItemDesc]
  | y :: ys, h => by
    rcases List.pairwise_cons.mp h with ⟨hy, hys⟩
    unfold insertItemDesc
    by_cases hle : sort_key y ≤ sort_key x
    · rw [if_pos hle]
      refine List.pairwise_cons.mpr ⟨?_, h⟩
      intro b hb
      rcases List.mem_cons.mp hb with hb | hb
      · rw [hb]; exact hle
      · exact le_trans (hy b hb) hle
    · rw [if_neg hle]
      refine List.pairwise_cons.mpr ⟨?_, pairwise_insertItemDesc x ys hys⟩
      intro b hb
      have hmem : b = x ∨ b ∈ ys := by
        have : ∀ zs : List Item, b ∈ insertItemDesc x zs → b = x ∨ b ∈ zs := by
          intro zs
          induction zs with
          | nil => intro hb2; simp [insertItemDesc] at hb2; exact Or.inl hb2
          | cons z zt ih =>
            intro hb2
            unfold insertItemDesc at hb2
            by_cases hz : sort_key z ≤ sort_key x
            · rw [if_pos hz] at hb2
              rcases List.mem_cons.mp hb2 with h1 | h1
              · exact Or.inl h1
              · exact Or.inr h1
            · rw [if_neg hz] at hb2
              rcases List.mem_cons.mp hb2 with h1 | h1
              · exact Or.inr (List.mem_cons.mpr (Or.inl h1))
              · rcases ih h1 with h2 | h2
                · exact Or.inl h2
                · exact Or.inr (List.mem_cons.mpr (Or.inr h2))
        exact this ys hb
      rcases hmem with hb1 | hb1
      · rw [hb1]
        omega
      · exact hy b hb1

/-- Insertion permutes to consing. -/
lemma perm_insertItemDesc (x : Item) :
    ∀ l : List Item, List.Perm (insertItemDesc x l) (x :: l)
  | [] => List.Perm.refl _
  | y :: ys => by
    unfold insertItemDesc
    by_cases hle : sort_key y ≤ sort_key x
    · rw [if_pos hle]
    · rw [if_neg hle]
      exact ((perm_insertItemDesc x ys).cons y).trans (List.Perm.swap x y ys)

/-- The model of Python's stable reverse sort yields pairwise
non-increasing keys. -/
lemma sortItemsDesc_pairwise :
    ∀ l : List Item, (sortItemsDesc l).Pairwise (fun a b => sort_key b ≤ sort_key a)
  | [] => by simp [sortItemsDesc]
  | x :: xs => pairwise_insertItemDesc x (sortItemsDesc xs) (sortItemsDesc_pairwise xs)

/-- Sorting permutes the input. -/
lemma sortItemsDesc_perm : ∀ l : List Item, List.Perm (sortItemsDesc l) l
  | [] => List.Perm.refl _
  | x :: xs =>
    (perm_insertItemDesc x (sortItemsDesc xs)).trans ((sortItemsDesc_perm xs).cons x)

/-- Insertion is stable on each key class: filtering by the inserted
element's key prepends it, filtering by any other key is unchanged.
This holds because every element passed over has a strictly larger key. -/
lemma filter_insertItemDesc (x : Item) (k : Int) :
    ∀ l : List Item,
      (insertItemDesc x l).filter (fun a => sort_key a == k)
        = if sort_key x == k then x :: l.filter (fun a => sort_key a == k)
          else l.filter (fun a => sort_key a == k)
  | [] => by
    unfold insertItemDesc
    simp only [List.filter_cons]
  | y :: ys => by
    unfold insertItemDesc
    by_cases hle : sort_key y ≤ sort_key x
    · rw [if_pos hle]
      simp only [List.filter_cons]
    · rw [if_neg hle]
      simp only [List.filter_cons, filter_insertItemDesc x k ys]
      by_cases hx : (sort_key x == k) = true
      · have hk : sort_key x = k := beq_iff_eq.mp hx
        have hyk : (sort_key y == k) = false := by
          rw [Bool.eq_false_iff]
          intro hy
          have := beq_iff_eq.mp hy
          omega
        rw [hx, hyk]
        simp
      · have hxf := Bool.eq_false_iff.mpr hx
        rw [hxf]
        simp

/-- Stability of the sort: each key class is filtered unchanged. -/
lemma sortItemsDesc_filter (k : Int) :
    ∀ l : List Item,
      (sortItemsDesc l).filter (fun a => sort_key a == k)
        = l.filter (fun a => sort_key a == k)
  | [] => rfl
  | x :: xs => by
    unfold sortItemsDesc
    rw [filter_insertItemDesc x k (sortItemsDesc xs)]
    by_cases hx : (sort_key x == k) = true
    · rw [if_pos hx, sortItemsDesc_filter k xs, List.filter_cons, hx, if_pos rfl]
    · have hxf := Bool.eq_false_iff.mpr hx
      rw [if_neg hx, sortItemsDesc_filter k xs, List.filter_cons, hxf]
      simp

/-- C1 counterexample: sorting an item dated one second before the epoch
(negative timestamp) together with an undated item (rank 0) places the
undated item first, i.e. the undated item ranks above a dated one,
refuting that every item without a timestamp ranks below every item with
one. -/
theorem C1_counterexample :
    sortItemsDesc [sampleB, sampleA] = [sampleA, sampleB]
    ∧ sampleA.published = none
    ∧ sampleB.published = some ⟨-1, 0⟩
    ∧ instant ⟨-1, 0⟩ < 0 := by decide

/-- C1 (amended): the final list is the sorted, truncated accepted set;
adjacent ranks are non-increasing; the sort permutes its input; each rank
class of the final list is a sublist of (hence in the relative order of)
the same rank class of the pre-sort accepted list (stability); undated
items rank exactly 0, below any positive-timestamp item but not below
items with negative (pre-1970) timestamps. -/
theorem C1_sort_amended (keywords exclude : List PyStr) (max_items : Nat)
    (sources : List SourceOutcome) (items : List Item)
    (h : collectItems keywords exclude sources = .ok items) :
    mainRun keywords exclude max_items sources
        = .ok ((sortItemsDesc items).take max_items)
    ∧ ((sortItemsDesc items).take max_items).Pairwise
        (fun a b => sort_key b ≤ sort_key a)
    ∧ List.Perm (sortItemsDesc items) items
    ∧ (∀ k : Int,
        List.Sublist (((sortItemsDesc items).take max_items).filter
            (fun a => sort_key a == k))
          (items.filter (fun a => sort_key a == k)))
    ∧ (∀ a : Item, a.published = none → sort_key a = 0)
    ∧ (∀ (b : Item) (d : RssDate), b.published = some d → 0 < instant d →
        0 < sort_key b) := by
  refine ⟨?_, ?_, sortItemsDesc_perm items, ?_, ?_, ?_⟩
  · unfold mainRun
    rw [h]
    rfl
  · exact (sortItemsDesc_pairwise items).sublist (List.take_sublist _ _)
  · intro k
    have h1 : List.Sublist (((sortItemsDesc items).take max_items).filter
        (fun a => sort_key a == k))
        ((sortItemsDesc items).filter (fun a => sort_key a == k)) :=
      (List.take_sublist _ _).filter _
    rw [sortItemsDesc_filter k items] at h1
    exact h1
  · intro a ha
    unfold sort_key
    rw [ha]
  · intro b d hb hd
    unfold sort_key
    rw [hb]
    exact hd

/-- C1 witness: the amended theorem at a one-source run. -/
theorem C1_witness :
    mainRun [] [] 60 [⟨some ("scrape".toList), .ok [sampleB, sampleA]⟩]
      = .ok [sampleA, sampleB] := by
  have h := C1_sort_amended [] [] 60 [⟨some ("scrape".toList), .ok [sampleB, sampleA]⟩]
    [sampleB, sampleA] (by decide)
  exact h.1.trans (by decide)

/-- C2 counterexample: the listing fetch of the first source raises after
exhausting its retries; `main` has no handler around `scrape_source`, so
the run aborts with that error and the second source's item — which a run
over the second source alone would deliver — never reaches an output
document. -/
theorem C2_counterexample :
    fetch_html (fun _ => .exn ("timeout".toList)) 2 = .failure ("timeout".toList)
    ∧ mainRun [] [] 60
        [⟨some ("scrape".toList), scrape_source (.failure ("timeout".toList)) []⟩,
         ⟨some ("scrape".toList), scrape_source (.success []) [sampleA]⟩]
        = .error ("timeout".toList)
    ∧ mainRun [] [] 60 [⟨some ("scrape".toList), scrape_source (.success []) [sampleA]⟩]
        = .ok [sampleA] := by decide

/-- C2 (amended): a `Blocked` listing page makes the source contribute
nothing while the remaining sources are still processed, but a listing
fetch that raises aborts the whole aggregation loop with that error. -/
theorem C2_failure_isolation_amended (keywords exclude : List PyStr)
    (st : List PyStr × List Item) (rest : List SourceOutcome) (t : Option PyStr)
    (arts : List Item) (ht : normType t = "scrape".toList) :
    (∀ e : PyStr,
      mainLoop keywords exclude st (⟨t, scrape_source (.failure e) arts⟩ :: rest)
        = .error e)
    ∧ mainLoop keywords exclude st (⟨t, scrape_source .blocked arts⟩ :: rest)
        = mainLoop keywords exclude st rest := by
  have hbne : (normType t != "scrape".toList) = false := by
    rw [bne_eq_false_iff_eq]
    exact ht
  constructor
  · intro e
    simp only [mainLoop, hbne, Bool.false_eq_true, if_false, scrape_source]
  · simp only [mainLoop, hbne, Bool.false_eq_true, if_false, scrape_source, acceptLoop]

/-- C2 witness: a blocked listing page leaves the state untouched. -/
theorem C2_witness :
    mainLoop [] [] ([], []) [⟨some ("scrape".toList), scrape_source .blocked []⟩]
      = .ok ([], []) := by
  rw [(C2_failure_isolation_amended [] [] ([], []) [] (some ("scrape".toList)) []
    (by decide)).2]
  rfl

/-- C3 counterexample: a source of type `feed` carrying an entry that a
feed reader would deliver is skipped outright — the output is empty, so
no Feed Reader path exists. -/
theorem C3_counterexample :
    mainRun [] [] 60 [⟨some ("feed".toList), .ok [sampleA]⟩] = .ok []
    ∧ normType (some ("feed".toList)) ≠ "scrape".toList := by decide

/-- C3 (amended): dispatch handles only the normalized type `scrape`
(missing or empty types default to it, and values are lowercased and
stripped); every other type, `feed` included, is skipped and the loop
moves on. -/
theorem C3_dispatch_amended (keywords exclude : List PyStr)
    (st : List PyStr × List Item) (src : SourceOutcome) (rest : List SourceOutcome) :
    (normType src.srcType ≠ "scrape".toList →
      mainLoop keywords exclude st (src :: rest) = mainLoop keywords exclude st rest)
    ∧ (∀ items, normType src.srcType = "scrape".toList → src.scraped = .ok items →
        mainLoop keywords exclude st (src :: rest)
          = mainLoop keywords exclude (acceptLoop keywords exclude st items) rest)
    ∧ normType none = "scrape".toList
    ∧ normType (some ("  Feed ".toList)) = "feed".toList := by
  refine ⟨?_, ?_, by decide, by decide⟩
  · intro h
    have hb : (normType src.srcType != "scrape".toList) = true := bne_iff_ne.mpr h
    simp only [mainLoop, hb, if_true]
  · intro items ht hs
    have hbne : (normType src.srcType != "scrape".toList) = false := by
      rw [bne_eq_false_iff_eq]
      exact ht
    simp only [mainLoop, hbne, Bool.false_eq_true, if_false, hs]

/-- C3 witness: an unsupported type is skipped. -/
theorem C3_witness :
    mainLoop [] [] ([], []) [⟨some ("rss".toList), .ok []⟩] = mainLoop [] [] ([], []) [] :=
  (C3_dispatch_amended [] [] ([], []) ⟨some ("rss".toList), .ok []⟩ []).1 (by decide)

/-- Bridge between the Bool `contains` test in the loop and membership. -/
lemma seenContains (l : List PyStr) (a : PyStr) : l.contains a = true ↔ a ∈ l :=
  List.elem_iff

lemma acceptLoop_nil (kw ex : List PyStr) (st : List PyStr × List Item) :
    acceptLoop kw ex st [] = st := by
  cases st
  rfl

lemma acceptLoop_cons (kw ex : List PyStr) (seen : List PyStr) (acc : List Item)
    (i : Item) (rest : List Item) :
    acceptLoop kw ex (seen, acc) (i :: rest)
      = if seen.contains i.link = true then acceptLoop kw ex (seen, acc) rest
        else if matches_filters i.title i.summary kw ex = true then
          acceptLoop kw ex (seen ++ [i.link], acc ++ [i]) rest
        else acceptLoop kw ex (seen, acc) rest := rfl

/-- Processing a concatenated stream threads the state through the first
part, so deduplication is global across source boundaries. -/
lemma acceptLoop_append (kw ex : List PyStr) :
    ∀ (a : List Item) (st : List PyStr × List Item) (b : List Item),
      acceptLoop kw ex st (a ++ b) = acceptLoop kw ex (acceptLoop kw ex st a) b
  | [], st, b => by rw [List.nil_append, acceptLoop_nil]
  | i :: rest, (seen, acc), b => by
    rw [List.cons_append, acceptLoop_cons, acceptLoop_cons]
    by_cases h1 : seen.contains i.link = true
    · rw [if_pos h1, if_pos h1, acceptLoop_append kw ex rest (seen, acc) b]
    · rw [if_neg h1, if_neg h1]
      by_cases h2 : matches_filters i.title i.summary kw ex = true
      · rw [if_pos h2, if_pos h2,
          acceptLoop_append kw ex rest (seen ++ [i.link], acc ++ [i]) b]
      · rw [if_neg h2, if_neg h2, acceptLoop_append kw ex rest (seen, acc) b]

/-- Membership in the accumulator after the loop: an item is accepted
exactly when it was already accepted, or its link is not yet seen and it
is the first passing item with its link in the stream. -/
lemma acceptLoop_mem (kw ex : List PyStr) :
    ∀ (items : List Item) (seen : List PyStr) (acc : List Item) (x : Item),
      (x ∈ (acceptLoop kw ex (seen, acc) items).2 ↔
        x ∈ acc ∨ (x.link ∉ seen ∧
          items.find? (fun y => y.link == x.link
            && matches_filters y.title y.summary kw ex) = some x))
  | [], seen, acc, x => by
    rw [acceptLoop_nil]
    simp
  | i :: rest, seen, acc, x => by
    rw [acceptLoop_cons]
    by_cases h1 : seen.contains i.link = true
    · rw [if_pos h1, acceptLoop_mem kw ex rest seen acc x]
      refine or_congr Iff.rfl (and_congr_right (fun hns => ?_))
      have hfind : List.find? (fun y => y.link == x.link
          && matches_filters y.title y.summary kw ex) (i :: rest)
          = List.find? (fun y => y.link == x.link
            && matches_filters y.title y.summary kw ex) rest := by
        apply List.find?_cons_of_neg
        intro hp
        have hp2 : (i.link == x.link) = true
            ∧ matches_filters i.title i.summary kw ex = true := by simpa using hp
        have hlink : i.link = x.link := eq_of_beq hp2.1
        apply hns
        rw [← hlink]
        exact (seenContains seen i.link).mp h1
      rw [hfind]
    · rw [if_neg h1]
      have hiseen : i.link ∉ seen := fun hin => h1 ((seenContains seen i.link).mpr hin)
      by_cases h2 : matches_filters i.title i.summary kw ex = true
      · rw [if_pos h2, acceptLoop_mem kw ex rest (seen ++ [i.link]) (acc ++ [i]) x]
        by_cases heq : (i.link == x.link) = true
        · have hxl : i.link = x.link := eq_of_beq heq
          rw [List.find?_cons_of_pos _ (by simp [heq, h2])]
          constructor
          · rintro (hmem | ⟨hnotin, hfound⟩)
            · rcases List.mem_append.mp hmem with h | h
              · exact Or.inl h
              · have hxi : x = i := by simpa using h
                refine Or.inr ⟨?_, by rw [hxi]⟩
                rw [hxi]
                exact hiseen
            · exfalso
              apply hnotin
              apply List.mem_append.mpr
              right
              rw [← hxl]
              simp
          · rintro (hmem | ⟨hnotin, hsome⟩)
            · exact Or.inl (List.mem_append.mpr (Or.inl hmem))
            · have hix : i = x := by simpa using hsome
              exact Or.inl (List.mem_append.mpr (Or.inr (by simp [hix])))
        · have hlinkne : x.link ≠ i.link := fun h =>
            heq (beq_iff_eq.mpr h.symm)
          have hxi : x ≠ i := fun hxeq => hlinkne (by rw [hxeq])
          have hfind : List.find? (fun y => y.link == x.link
              && matches_filters y.title y.summary kw ex) (i :: rest)
              = List.find? (fun y => y.link == x.link
                && matches_filters y.title y.summary kw ex) rest := by
            apply List.find?_cons_of_neg
            intro hp
            have hp2 : (i.link == x.link) = true
                ∧ matches_filters i.title i.summary kw ex = true := by simpa using hp
            exact heq hp2.1
          rw [hfind]
          constructor
          · rintro (hmem | ⟨hnotin, hf⟩)
            · rcases List.mem_append.mp hmem with h | h
              · exact Or.inl h
              · have : x = i := by simpa using h
                exact absurd this hxi
            · exact Or.inr ⟨fun hin => hnotin (List.mem_append.mpr (Or.inl hin)), hf⟩
          · rintro (hmem | ⟨hnotin, hf⟩)
            · exact Or.inl (List.mem_append.mpr (Or.inl hmem))
            · refine Or.inr ⟨?_, hf⟩
              intro hin
              rcases List.mem_append.mp hin with h | h
              · exact hnotin h
              · have : x.link = i.link := by simpa using h
                exact hlinkne this
      · rw [if_neg h2, acceptLoop_mem kw ex rest seen acc x]
        have hfind : List.find? (fun y => y.link == x.link
            && matches_filters y.title y.summary kw ex) (i :: rest)
            = List.find? (fun y => y.link == x.link
              && matches_filters y.title y.summary kw ex) rest := by
          apply List.find?_cons_of_neg
          intro hp
          have hp2 : (i.link == x.link) = true
              ∧ matches_filters i.title i.summary kw ex = true := by simpa using hp
          exact h2 hp2.2
        rw [hfind]

/-- The loop keeps every accepted link registered in `seen_links` and the
accepted links pairwise distinct. -/
lemma acceptLoop_invariant (kw ex : List PyStr) :
    ∀ (items : List Item) (seen : List PyStr) (acc : List Item),
      (∀ y ∈ acc, y.link ∈ seen) → (acc.map Item.link).Nodup →
      ((∀ y ∈ (acceptLoop kw ex (seen, acc) items).2,
          y.link ∈ (acceptLoop kw ex (seen, acc) items).1)
        ∧ ((acceptLoop kw ex (seen, acc) items).2.map Item.link).Nodup)
  | [], seen, acc, hsub, hnd => by
    rw [acceptLoop_nil]
    exact ⟨hsub, hnd⟩
  | i :: rest, seen, acc, hsub, hnd => by
    rw [acceptLoop_cons]
    by_cases h1 : seen.contains i.link = true
    · rw [if_pos h1]
      exact acceptLoop_invariant kw ex rest seen acc hsub hnd
    · rw [if_neg h1]
      have hiseen : i.link ∉ seen := fun hin => h1 ((seenContains seen i.link).mpr hin)
      by_cases h2 : matches_filters i.title i.summary kw ex = true
      · rw [if_pos h2]
        apply acceptLoop_invariant kw ex rest (seen ++ [i.link]) (acc ++ [i])
        · intro y hy
          rcases List.mem_append.mp hy with h | h
          · exact List.mem_append.mpr (Or.inl (hsub y h))
          · have : y = i := by simpa using h
            rw [this]
            exact List.mem_append.mpr (Or.inr (by simp))
        · rw [List.map_append]
          apply List.Nodup.append hnd (by simp)
          intro a ha hcontra
          have hai : a = i.link := by simpa using hcontra
          rcases List.mem_map.mp ha with ⟨y, hy, hya⟩
          apply hiseen
          rw [← hai, ← hya]
          exact hsub y hy
      · rw [if_neg h2]
        exact acceptLoop_invariant kw ex rest seen acc hsub hnd

lemma mainLoop_nil (kw ex : List PyStr) (st : List PyStr × List Item) :
    mainLoop kw ex st [] = .ok st := by
  cases st
  rfl

lemma mainLoop_cons (kw ex : List PyStr) (st : List PyStr × List Item)
    (src : SourceOutcome) (rest : List SourceOutcome) :
    mainLoop kw ex st (src :: rest)
      = if (normType src.srcType != "scrape".toList) = true then mainLoop kw ex st rest
        else
          match src.scraped with
          | .error e => .error e
          | .ok items => mainLoop kw ex (acceptLoop kw ex st items) rest := rfl

/-- The source loop preserves the dedupe invariant. -/
lemma mainLoop_nodup (kw ex : List PyStr) :
    ∀ (srcs : List SourceOutcome) (st : List PyStr × List Item),
      (∀ y ∈ st.2, y.link ∈ st.1) → (st.2.map Item.link).Nodup →
      ∀ st2, mainLoop kw ex st srcs = .ok st2 →
        (∀ y ∈ st2.2, y.link ∈ st2.1) ∧ (st2.2.map Item.link).Nodup
  | [], st, hsub, hnd, st2, heq => by
    rw [mainLoop_nil] at heq
    have : st = st2 := by simpa using heq
    rw [← this]
    exact ⟨hsub, hnd⟩
  | src :: rest, ⟨seen, acc⟩, hsub, hnd, st2, heq => by
    rw [mainLoop_cons] at heq
    by_cases ht : (normType src.srcType != "scrape".toList) = true
    · rw [if_pos ht] at heq
      exact mainLoop_nodup kw ex rest (seen, acc) hsub hnd st2 heq
    · rw [if_neg ht] at heq
      cases hscr : src.scraped with
      | error e =>
        rw [hscr] at heq
        exact absurd heq (by simp)
      | ok items =>
        rw [hscr] at heq
        have hinv := acceptLoop_invariant kw ex items seen acc hsub hnd
        exact mainLoop_nodup kw ex rest (acceptLoop kw ex (seen, acc) items)
          hinv.1 hinv.2 st2 heq

/-- A run over scrape-typed sources that all deliver their item batches
is the accept loop over the concatenated global stream. -/
lemma mainLoop_all_ok (kw ex : List PyStr) :
    ∀ (batches : List (List Item)) (st : List PyStr × List Item),
      mainLoop kw ex st
          (batches.map (fun items => ⟨some ("scrape".toList), Except.ok items⟩))
        = .ok (acceptLoop kw ex st batches.flatten)
  | [], st => by
    rw [List.map_nil, mainLoop_nil, List.flatten_nil, acceptLoop_nil]
  | b :: bs, st => by
    rw [List.map_cons, mainLoop_cons]
    rw [show ({ srcType := some ("scrape".toList), scraped := Except.ok b } :
        SourceOutcome).srcType = some ("scrape".toList) from rfl]
    rw [if_neg (by decide)]
    show mainLoop kw ex (acceptLoop kw ex st b)
        (bs.map (fun items => ⟨some ("scrape".toList), Except.ok items⟩)) = _
    rw [mainLoop_all_ok kw ex bs (acceptLoop kw ex st b), List.flatten_cons,
      acceptLoop_append kw ex b st bs.flatten]

/-- C5: in every surviving run the output links are pairwise distinct; an
item is accepted from the global stream exactly when it is the first
filter-passing item bearing its link (first-seen wins, keyed only on
`link`); and a run over any list of per-source batches processes the
concatenated stream, so deduplication is global across sources. -/
theorem C5_dedup_first_accepted (keywords exclude : List PyStr) (max_items : Nat)
    (sources : List SourceOutcome) :
    (∀ out, mainRun keywords exclude max_items sources = .ok out →
      (out.map Item.link).Nodup)
    ∧ (∀ (stream : List Item) (x : Item),
        x ∈ acceptedItems keywords exclude stream ↔
          stream.find? (fun y => y.link == x.link
            && matches_filters y.title y.summary keywords exclude) = some x)
    ∧ (∀ batches : List (List Item),
        mainRun keywords exclude max_items
            (batches.map (fun items => ⟨some ("scrape".toList), Except.ok items⟩))
          = .ok ((sortItemsDesc (acceptedItems keywords exclude batches.flatten)).take
              max_items)) := by
  refine ⟨?_, ?_, ?_⟩
  · intro out hout
    unfold mainRun collectItems at hout
    cases hml : mainLoop keywords exclude ([], []) sources with
    | error e =>
      rw [hml] at hout
      exact absurd hout (by simp [Except.map])
    | ok st2 =>
      rw [hml] at hout
      simp only [Except.map, Except.ok.injEq] at hout
      have hnd := (mainLoop_nodup keywords exclude sources ([], [])
        (by simp) (by simp) st2 hml).2
      have h1 : ((sortItemsDesc st2.2).map Item.link).Nodup :=
        (((sortItemsDesc_perm st2.2).map Item.link).symm).nodup hnd
      have h2 : (((sortItemsDesc st2.2).take max_items).map Item.link).Nodup := by
        rw [List.map_take]
        exact List.Nodup.sublist (List.take_sublist _ _) h1
      rw [← hout]
      exact h2
  · intro stream x
    unfold acceptedItems
    rw [acceptLoop_mem keywords exclude stream [] [] x]
    simp
  · intro batches
    unfold mainRun collectItems acceptedItems
    rw [mainLoop_all_ok keywords exclude batches ([], [])]
    rfl

/-- C5 witness: two items with the same link, the first passing the empty
filters; exactly the first is accepted. -/
theorem C5_witness :
    sampleA ∈ acceptedItems [] [] [sampleA, sampleDup]
    ∧ sampleDup ∉ acceptedItems [] [] [sampleA, sampleDup] := by
  constructor
  · exact ((C5_dedup_first_accepted [] [] 60 []).2.1 [sampleA, sampleDup] sampleA).mpr
      (by decide)
  · intro hmem
    have h := ((C5_dedup_first_accepted [] [] 60 []).2.1 [sampleA, sampleDup] sampleDup).mp
      hmem
    exact absurd h (by decide)
